import Mathlib

/-
  Verification of the `abort` diagnostic/early-return facility
  (https://github.com/jfern2011/abort).

  The development shallowly embeds the two implementations found in the
  repository:

  * the current one: the macros of `include/abort/abort.h` together with the
    state and helpers of `src/abort.cc` (global `frame_cnt`, global NUL-filled
    `buffer`, `print_msg`, `set_message_size`);
  * the legacy one: `abort.h` at the repository root (`ABORT_SELECT`,
    a `set_message_size` that resizes the buffer to exactly the requested
    size, and an unguarded `buffer.at(0)` access).

  C++ strings are embedded as `List Char` (`Str`); a `std::string` of a given
  size filled with NUL characters is `nulBuf`.  The process-wide mutable state
  (frame counter, format buffer, errno, emitted lines) is the structure `St`.
  A guard evaluation is a tree (`GEval` / `CondComp`): the condition position
  of a guard may itself run nested guard evaluations, which is how the
  recursive call chains of the unit tests arise.  `Int` is used for the C
  `int` counter: the claims under study are about balance and sign, never
  about wrap-around, and the counter moves by plus or minus one per step.
-/

namespace Abort

/-- C++ byte strings are embedded as lists of characters. -/
abbrev Str := List Char

/-- The NUL character `'\0'`. -/
def nulChar : Char := Char.ofNat 0

/-- A `std::string(n, '\0')`: n NUL characters. -/
def nulBuf (n : Nat) : Str := List.replicate n nulChar

/-- `std::string::resize`: truncate, or pad with NUL characters. -/
def strResize (s : Str) (n : Nat) : Str :=
  if n ≤ s.length then s.take n else s ++ nulBuf (n - s.length)

/-- `std::snprintf(&dest.at(0), dest.size(), ...)` where `src` is the text the
format substitution would produce with no size limit: at most `dest.length - 1`
characters of `src` are written, followed by a terminating NUL; the characters
of `dest` beyond the terminator are left unchanged.  With `dest.length = 0`
nothing is written (the C size argument is `0`). -/
def snprintfInto (dest src : Str) : Str :=
  if dest.length = 0 then dest
  else
    let c := min src.length (dest.length - 1)
    src.take c ++ [nulChar] ++ dest.drop (c + 1)

/-- The message-construction step shared by `ABORT_IF` / `ABORT` /
`ABORT_IF_NOT` (include/abort/abort.h):
`std::string message = buffer; if (!message.empty()) snprintf(&message.at(0),
message.size(), " " __VA_ARGS__);`.  `fmt` is the natural (unbounded) text
produced by the caller's format string and arguments; the format literal is
`" "` concatenated with the caller's literal, hence the leading space. -/
def mkMessage (buffer fmt : Str) : Str :=
  if buffer = [] then buffer else snprintfInto buffer (' ' :: fmt)

/-- The exceptions that the embedded string operations can raise. -/
inductive CppExc where
  | outOfRange
  deriving DecidableEq

/-- `std::string::at(i)`: throws `std::out_of_range` when out of bounds. -/
def strAt (s : Str) (i : Nat) : Except CppExc Char :=
  if h : i < s.length then .ok (s.get ⟨i, h⟩) else .error .outOfRange

/-- The message-construction step of the current macros with the possible
`std::out_of_range` of `message.at(0)` made explicit: the snprintf call (and
with it the `at(0)` access) only happens under the `!message.empty()` guard. -/
def build_message (buffer fmt : Str) : Except CppExc Str :=
  if buffer = [] then .ok buffer
  else
    match strAt buffer 0 with
    | .error e => .error e
    | .ok _ => .ok (snprintfInto buffer (' ' :: fmt))

/-- Call-site data captured by the macros (`__FILE__`, `__LINE__`,
`__PRETTY_FUNCTION__`). -/
structure CallSite where
  file : Str
  linum : Nat
  func : Str
  deriving DecidableEq

/-- Decimal rendering of an `Int`, as `operator<<` produces. -/
def intStr (i : Int) : Str := (toString i).data

/-- Decimal rendering of a `Nat`, as `operator<<` produces. -/
def natStr (n : Nat) : Str := (toString n).data

/-- The fixed line header written by `print_msg` (src/abort.cc):
`abort[<frame_cnt>]: <file>:<line>: In '<func>':` (no trailing space; the body
that follows starts with its own space). -/
def lineHeader (fc : Int) (file : Str) (linum : Nat) (func : Str) : Str :=
  "abort[".data ++ intStr fc ++ "]: ".data ++ file ++ ":".data ++ natStr linum
    ++ ": In \x27".data ++ func ++ "\x27:".data

/-- `diagnostics::internal::print_msg` (src/abort.cc): header, then either the
boilerplate `<select>(<cond>[, ]<ret>);` when no macro varargs were given, or
the pre-formatted message.  The `std::endl` terminating the line is modelled
by the line boundary between elements of the output list. -/
def print_msg (select : Str) (num_args : Nat) (cond ret : Str) (fc : Int)
    (file : Str) (linum : Nat) (func : Str) (msg : Str) : Str :=
  lineHeader fc file linum func ++
    (if num_args = 0 then
      " ".data ++ select ++ "(".data ++ cond
        ++ (if cond = [] then ([] : Str) else ", ".data) ++ ret ++ ");".data
    else msg)

/-- Modelled from the spec: the platform's "describe the last error code"
facility (`strerror`-style).  The concrete wording is platform-defined and not
part of the repository; it is modelled as an injective rendering of the code. -/
def strerror_desc (e : Int) : Str := "error code ".data ++ intStr e

/-- Modelled from the spec: `diagnostics::internal::errno_msg` is declared in
include/abort/abort.h and called by `ABORT_ON_ERRNO`, but its definition is
not in the sources.  Per the spec it writes the standard header, the
guard-kind tag with the stringified expression and return value, and the
human-readable description of the last recorded error code, instead of a
user-supplied formatted message. -/
def errno_msg (select : Str) (expr ret : Str) (fc : Int) (file : Str)
    (linum : Nat) (func : Str) (e : Int) : Str :=
  lineHeader fc file linum func ++ " ".data ++ select ++ "(".data ++ expr
    ++ ", ".data ++ ret ++ "): ".data ++ strerror_desc e

/-- One emitted diagnostic line, recorded as the arguments handed to
`print_msg` (constructor `printed`) or to `errno_msg` (constructor
`errnoed`). -/
inductive LineRec where
  | printed (select : Str) (num_args : Nat) (cond ret : Str) (fc : Int)
      (site : CallSite) (msg : Str)
  | errnoed (select expr ret : Str) (fc : Int) (site : CallSite) (e : Int)
  deriving DecidableEq

/-- The depth value embedded in a line (the `frame_cnt` argument, printed as
`abort[<depth>]`). -/
def LineRec.depth : LineRec → Int
  | .printed _ _ _ _ fc _ _ => fc
  | .errnoed _ _ _ fc _ _ => fc

/-- The rendered text of a line. -/
def LineRec.render : LineRec → Str
  | .printed select num_args cond ret fc site msg =>
      print_msg select num_args cond ret fc site.file site.linum site.func msg
  | .errnoed select expr ret fc site e =>
      errno_msg select expr ret fc site.file site.linum site.func e

/-- The process-wide mutable state of the facility, plus instrumentation:
`frame_cnt` and `buffer` are the globals of src/abort.cc, `errnoV` is the C
`errno`, `out` is the sequence of lines written to the configured sink,
`hist` records the value of `frame_cnt` after each `++`/`--` (so that
"never goes negative" is statable), and `sideEffects` logs the observable
effects of caller-supplied condition expressions. -/
structure St where
  frame_cnt : Int
  buffer : Str
  errnoV : Int
  out : List LineRec
  hist : List Int
  sideEffects : List Int
  deriving DecidableEq

/-- The initial state: `frame_cnt = 0` and `buffer(1024, '\0')`. -/
def initSt : St :=
  { frame_cnt := 0, buffer := nulBuf 1024, errnoV := 0, out := [], hist := [],
    sideEffects := [] }

/-- `diagnostics::internal::frame_cnt++` at guard entry. -/
def inc (s : St) : St :=
  { s with frame_cnt := s.frame_cnt + 1, hist := s.hist ++ [s.frame_cnt + 1] }

/-- `diagnostics::internal::frame_cnt--` at guard exit. -/
def dec (s : St) : St :=
  { s with frame_cnt := s.frame_cnt - 1, hist := s.hist ++ [s.frame_cnt - 1] }

/-- `diagnostics::set_message_size` (src/abort.cc): resizes the buffer to
`size + 2` (one extra for the leading space, one for the NUL terminator). -/
def set_message_size (size : Nat) (s : St) : St :=
  { s with buffer := strResize s.buffer (size + 2) }

mutual

/-- A guard evaluation: one expansion of `ABORT_IF`, `ABORT_IF_NOT`, `ABORT`
or `ABORT_ON_ERRNO` (include/abort/abort.h).  Each conditional kind carries
the computation of its condition (or wrapped) expression, its stringified
condition and return texts (`#cond`, `#ret`), the value returned on firing,
the call site, the number of macro varargs, and the natural text of the
formatted user message.  `ABORT` carries no condition: nothing is evaluated
between its entry and its exit (its return expression is evaluated after the
final `frame_cnt--`). -/
inductive GEval where
  | abortIf (cond : CondComp) (condTxt retTxt : Str) (rv : Int)
      (site : CallSite) (nargs : Nat) (fmt : Str)
  | abortIfNot (cond : CondComp) (condTxt retTxt : Str) (rv : Int)
      (site : CallSite) (nargs : Nat) (fmt : Str)
  | abortUncond (retTxt : Str) (rv : Int) (site : CallSite) (nargs : Nat)
      (fmt : Str)
  | abortOnErrno (expr : CondComp) (exprTxt retTxt : Str) (rv : Int)
      (site : CallSite)

/-- The computation of a condition (or wrapped) expression: it yields an
`Int` (C truth value / system-call result) and may, before that, perform
observable side effects, set `errno`, or run nested guard evaluations in
called functions - continuing with `kRet` when the nested evaluation fired
(the callee early-returned) and with `kCont` otherwise. -/
inductive CondComp where
  | pure (v : Int)
  | effect (tag : Int) (k : CondComp)
  | setErrno (e : Int) (k : CondComp)
  | evalThen (g : GEval) (kRet kCont : CondComp)

end

mutual

/-- Execute one guard evaluation.  Returns `some rv` when the guard fired
(the enclosing routine early-returns with `rv`) and `none` otherwise,
together with the new state.  Each branch follows the corresponding macro
text line by line. -/
def execG : GEval → St → Option Int × St
  | .abortIf c condTxt retTxt rv site nargs fmt, s =>
      let s1 := inc s
      let r := execC c s1
      if r.1 ≠ 0 then
        (some rv, dec { r.2 with out := r.2.out ++
          [LineRec.printed ("ABORT_IF".data) nargs condTxt retTxt
            (r.2.frame_cnt - 1) site (mkMessage r.2.buffer fmt)] })
      else
        (none, dec r.2)
  | .abortIfNot c condTxt retTxt rv site nargs fmt, s =>
      let s1 := inc s
      let r := execC c s1
      if r.1 = 0 then
        (some rv, dec { r.2 with out := r.2.out ++
          [LineRec.printed ("ABORT_IF_NOT".data) nargs condTxt retTxt
            (r.2.frame_cnt - 1) site (mkMessage r.2.buffer fmt)] })
      else
        (none, dec r.2)
  | .abortUncond retTxt rv site nargs fmt, s =>
      let s1 := inc s
      (some rv, dec { s1 with out := s1.out ++
        [LineRec.printed ("ABORT".data) nargs ([] : Str) retTxt
          (s1.frame_cnt - 1) site (mkMessage s1.buffer fmt)] })
  | .abortOnErrno c exprTxt retTxt rv site, s =>
      let s1 := inc s
      let r := execC c s1
      if r.1 = -1 then
        (some rv, dec { r.2 with out := r.2.out ++
          [LineRec.errnoed ("ABORT_ON_ERRNO".data) exprTxt retTxt
            (r.2.frame_cnt - 1) site r.2.errnoV] })
      else
        (none, dec r.2)

/-- Execute a condition computation. -/
def execC : CondComp → St → Int × St
  | .pure v, s => (v, s)
  | .effect t k, s => execC k { s with sideEffects := s.sideEffects ++ [t] }
  | .setErrno e k, s => execC k { s with errnoV := e }
  | .evalThen g kRet kCont, s =>
      let r := execG g s
      match r.1 with
      | some _ => execC kRet r.2
      | none => execC kCont r.2

end

/-- Execute a sequence of completed guard evaluations one after the other. -/
def execSeq : List GEval → St → St
  | [], s => s
  | g :: gs, s => execSeq gs (execG g s).2

/-- The caller-visible user-message text of an emitted message string: the
NUL-terminated text that follows the single leading space. -/
def userSegment (msg : Str) : Str :=
  (msg.drop 1).takeWhile (fun ch => decide (ch ≠ nulChar))

/-- `fmt` contains no NUL character (natural formatted text). -/
abbrev nulFree (l : Str) : Prop := ∀ ch ∈ l, ch ≠ nulChar

/-- The message string a firing macro hands to `print_msg` when the
configured message size limit is `L` (buffer of `L + 2` NUL characters). -/
def msgFor (L : Nat) (fmt : Str) : Str := mkMessage (nulBuf (L + 2)) fmt

/-! ### Nested chains (claim C4)

A recursive chain of nested guard evaluations: each evaluation but the
innermost runs the next one inside its condition (or wrapped) expression -
the pattern of the unit tests, where the recursive call sits inside the
macro's condition.  `ABORT` has no condition expression, so it can only be
the innermost member of a nested chain (a recursive call in its return
expression is evaluated after its exit and is not nested). -/

/-- The guard kinds able to enclose a nested evaluation in their condition
(or wrapped) expression. -/
inductive NodeKind where
  | nIf
  | nIfNot
  | nErr
  deriving DecidableEq

/-- The data of one enclosing member of a chain. -/
structure NodeSpec where
  kind : NodeKind
  condTxt : Str
  retTxt : Str
  rv : Int
  site : CallSite
  nargs : Nat
  fmt : Str

/-- The data of the innermost member of a chain (any of the four kinds). -/
inductive LeafSpec where
  | lIf (condTxt retTxt : Str) (rv : Int) (site : CallSite) (nargs : Nat)
      (fmt : Str)
  | lIfNot (condTxt retTxt : Str) (rv : Int) (site : CallSite) (nargs : Nat)
      (fmt : Str)
  | lUncond (retTxt : Str) (rv : Int) (site : CallSite) (nargs : Nat)
      (fmt : Str)
  | lErr (exprTxt retTxt : Str) (rv : Int) (site : CallSite)

/-- The innermost guard of a chain, with a condition making it fire
(`ABORT_IF` fires on a nonzero condition, `ABORT_IF_NOT` on zero, `ABORT`
always, `ABORT_ON_ERRNO` on -1). -/
def leafGuard : LeafSpec → GEval
  | .lIf condTxt retTxt rv site nargs fmt =>
      .abortIf (.pure 1) condTxt retTxt rv site nargs fmt
  | .lIfNot condTxt retTxt rv site nargs fmt =>
      .abortIfNot (.pure 0) condTxt retTxt rv site nargs fmt
  | .lUncond retTxt rv site nargs fmt =>
      .abortUncond retTxt rv site nargs fmt
  | .lErr exprTxt retTxt rv site =>
      .abortOnErrno (.pure (-1)) exprTxt retTxt rv site

/-- An enclosing member of a chain: its condition runs the nested evaluation
and then takes a value that makes the guard fire. -/
def nodeGuard (n : NodeSpec) (inner : GEval) : GEval :=
  match n.kind with
  | .nIf => .abortIf (.evalThen inner (.pure 1) (.pure 1))
      n.condTxt n.retTxt n.rv n.site n.nargs n.fmt
  | .nIfNot => .abortIfNot (.evalThen inner (.pure 0) (.pure 0))
      n.condTxt n.retTxt n.rv n.site n.nargs n.fmt
  | .nErr => .abortOnErrno (.evalThen inner (.pure (-1)) (.pure (-1)))
      n.condTxt n.retTxt n.rv n.site

/-- A recursive chain of nested guard evaluations that all fire. -/
def chain : List NodeSpec → LeafSpec → GEval
  | [], l => leafGuard l
  | n :: ns, l => nodeGuard n (chain ns l)

/-- The strictly descending depth sequence `[c+n-1, ..., c+1, c]`. -/
def descFrom (c : Int) : Nat → List Int
  | 0 => []
  | n + 1 => descFrom (c + 1) n ++ [c]

/-! ### The legacy variant (root abort.h, claim C9)

The legacy header keeps `buffer` as a global and, on firing with at least one
format argument, writes `select "\n\t => " __VA_ARGS__` into it through
`&buffer.at(0)`; its `set_message_size` resizes the buffer to exactly the
requested size. -/

/-- Legacy `diagnostics::set_message_size` (root abort.h): resizes the buffer
to exactly `size`. -/
def legacy_set_message_size (size : Nat) (buffer : Str) : Str :=
  strResize buffer size

/-- The firing branch of the legacy `ABORT_SELECT` (root abort.h) after the
header is written: with at least one format argument it accesses
`buffer.at(0)` and snprintf-formats `select "\n\t => " __VA_ARGS__` into the
buffer, then streams the whole buffer; with none it streams `select`.
Returns the buffer after the call paired with the body text written, or the
exception raised. -/
def legacy_fire_body (buffer : Str) (nargs : Nat) (select fmt : Str) :
    Except CppExc (Str × Str) :=
  if nargs ≠ 0 then
    match strAt buffer 0 with
    | .error e => .error e
    | .ok _ =>
        let b := snprintfInto buffer (select ++ "\n\t => ".data ++ fmt)
        .ok (b, b)
  else .ok (buffer, select)

/-! ## Helper lemmas on the string model -/

theorem nulBuf_ne_nil {n : Nat} (h : n ≠ 0) : nulBuf n ≠ [] := by
  simp [nulBuf, h]

theorem strResize_nulBuf (m n : Nat) : strResize (nulBuf m) n = nulBuf n := by
  unfold strResize nulBuf
  rcases le_or_lt n m with h | h
  · rw [if_pos (by simpa using h), List.take_replicate, Nat.min_eq_left h]
  · rw [if_neg (by simp; omega)]
    rw [List.length_replicate, ← List.replicate_add]
    congr 1
    omega

theorem snprintfInto_nulBuf (n : Nat) (src : Str) (h : n ≠ 0) :
    snprintfInto (nulBuf n) src
      = src.take (min src.length (n - 1))
          ++ nulChar :: nulBuf (n - 1 - min src.length (n - 1)) := by
  unfold snprintfInto
  rw [if_neg (by simpa [nulBuf] using h)]
  simp only [nulBuf, List.length_replicate, List.drop_replicate,
    List.append_assoc, List.singleton_append]
  have heq : n - (src.length ⊓ (n - 1) + 1) = n - 1 - src.length ⊓ (n - 1) := by
    omega
  rw [heq]

theorem mkMessage_length (b f : Str) : (mkMessage b f).length = b.length := by
  unfold mkMessage
  by_cases hb : b = []
  · simp [hb]
  · rw [if_neg hb]
    unfold snprintfInto
    have hbl : b.length ≠ 0 := by simpa using hb
    rw [if_neg hbl]
    simp only [List.length_append, List.length_take, List.length_cons,
      List.length_nil, List.length_drop]
    omega

theorem msgFor_eq (L : Nat) (fmt : Str) :
    msgFor L fmt
      = ' ' :: (fmt.take (min fmt.length L)
          ++ nulChar :: nulBuf (L - min fmt.length L)) := by
  unfold msgFor mkMessage
  rw [if_neg (nulBuf_ne_nil (by omega))]
  rw [snprintfInto_nulBuf (L + 2) (' ' :: fmt) (by omega)]
  have h1 : (' ' :: fmt).length = fmt.length + 1 := by simp
  have h2 : L + 2 - 1 = L + 1 := by omega
  rw [h1, h2, Nat.succ_min_succ, List.take_succ_cons]
  have h3 : L + 1 - (min fmt.length L + 1) = L - min fmt.length L := by omega
  rw [h3, List.cons_append]

theorem msgFor_length (L : Nat) (fmt : Str) : (msgFor L fmt).length = L + 2 := by
  have := mkMessage_length (nulBuf (L + 2)) fmt
  simpa [msgFor, nulBuf] using this

theorem takeWhile_nulFree_append (l₁ l₂ : Str)
    (h : ∀ ch ∈ l₁, ch ≠ nulChar) :
    (l₁ ++ nulChar :: l₂).takeWhile (fun ch => decide (ch ≠ nulChar)) = l₁ := by
  induction l₁ with
  | nil => simp [List.takeWhile]
  | cons a l ih =>
      have ha : (decide (a ≠ nulChar)) = true := by
        simpa using h a (by simp)
      simp only [List.cons_append, List.takeWhile, ha, List.append_eq]
      rw [ih (fun ch hch => h ch (by simp [hch]))]

theorem userSegment_msgFor (L : Nat) (fmt : Str) (h : nulFree fmt) :
    userSegment (msgFor L fmt) = fmt.take (min fmt.length L) := by
  rw [msgFor_eq]
  unfold userSegment
  rw [List.drop_succ_cons, List.drop_zero]
  exact takeWhile_nulFree_append _ _
    (fun ch hch => h ch (List.take_subset _ _ hch))

theorem userSegment_msgFor_length (L : Nat) (fmt : Str) (h : nulFree fmt) :
    (userSegment (msgFor L fmt)).length = min L fmt.length := by
  rw [userSegment_msgFor L fmt h, List.length_take]
  omega

/-! ## Depth-counter invariants -/

mutual

theorem execG_inv (g : GEval) (s : St) :
    ((execG g s).2).frame_cnt = s.frame_cnt ∧
    ∃ t, ((execG g s).2).hist
        = s.hist ++ (s.frame_cnt + 1) :: (t ++ [s.frame_cnt])
      ∧ ∀ v ∈ t, s.frame_cnt + 1 ≤ v := by
  cases g with
  | abortIf c condTxt retTxt rv site nargs fmt =>
      obtain ⟨h1, t, h2, h3⟩ := execC_inv c (inc s)
      have hmem : ∀ v ∈ t, s.frame_cnt + 1 ≤ v := by
        intro v hv
        have hh := h3 v hv
        simpa [inc] using hh
      by_cases h : (execC c (inc s)).1 ≠ 0
      · refine ⟨?_, t, ?_, hmem⟩
        · simp only [execG, if_pos h, dec]
          rw [h1]
          simp [inc]
        · simp only [execG, if_pos h, dec]
          rw [h2, h1]
          simp [inc, List.append_assoc]
      · refine ⟨?_, t, ?_, hmem⟩
        · simp only [execG, if_neg h, dec]
          rw [h1]
          simp [inc]
        · simp only [execG, if_neg h, dec]
          rw [h2, h1]
          simp [inc, List.append_assoc]
  | abortIfNot c condTxt retTxt rv site nargs fmt =>
      obtain ⟨h1, t, h2, h3⟩ := execC_inv c (inc s)
      have hmem : ∀ v ∈ t, s.frame_cnt + 1 ≤ v := by
        intro v hv
        have hh := h3 v hv
        simpa [inc] using hh
      by_cases h : (execC c (inc s)).1 = 0
      · refine ⟨?_, t, ?_, hmem⟩
        · simp only [execG, if_pos h, dec]
          rw [h1]
          simp [inc]
        · simp only [execG, if_pos h, dec]
          rw [h2, h1]
          simp [inc, List.append_assoc]
      · refine ⟨?_, t, ?_, hmem⟩
        · simp only [execG, if_neg h, dec]
          rw [h1]
          simp [inc]
        · simp only [execG, if_neg h, dec]
          rw [h2, h1]
          simp [inc, List.append_assoc]
  | abortUncond retTxt rv site nargs fmt =>
      refine ⟨?_, [], ?_, ?_⟩
      · simp [execG, inc, dec]
      · simp [execG, inc, dec]
      · simp
  | abortOnErrno c exprTxt retTxt rv site =>
      obtain ⟨h1, t, h2, h3⟩ := execC_inv c (inc s)
      have hmem : ∀ v ∈ t, s.frame_cnt + 1 ≤ v := by
        intro v hv
        have hh := h3 v hv
        simpa [inc] using hh
      by_cases h : (execC c (inc s)).1 = -1
      · refine ⟨?_, t, ?_, hmem⟩
        · simp only [execG, if_pos h, dec]
          rw [h1]
          simp [inc]
        · simp only [execG, if_pos h, dec]
          rw [h2, h1]
          simp [inc, List.append_assoc]
      · refine ⟨?_, t, ?_, hmem⟩
        · simp only [execG, if_neg h, dec]
          rw [h1]
          simp [inc]
        · simp only [execG, if_neg h, dec]
          rw [h2, h1]
          simp [inc, List.append_assoc]

theorem execC_inv (c : CondComp) (s : St) :
    ((execC c s).2).frame_cnt = s.frame_cnt ∧
    ∃ t, ((execC c s).2).hist = s.hist ++ t ∧ ∀ v ∈ t, s.frame_cnt ≤ v := by
  cases c with
  | pure v => exact ⟨by simp [execC], [], by simp [execC], by simp⟩
  | effect tg k =>
      obtain ⟨h1, t, h2, h3⟩ :=
        execC_inv k { s with sideEffects := s.sideEffects ++ [tg] }
      refine ⟨?_, t, ?_, fun v hv => h3 v hv⟩
      · simp only [execC]
        rw [h1]
      · simp only [execC]
        rw [h2]
  | setErrno e k =>
      obtain ⟨h1, t, h2, h3⟩ := execC_inv k { s with errnoV := e }
      refine ⟨?_, t, ?_, fun v hv => h3 v hv⟩
      · simp only [execC]
        rw [h1]
      · simp only [execC]
        rw [h2]
  | evalThen g kRet kCont =>
      obtain ⟨hg1, tg, hg2, hg3⟩ := execG_inv g s
      cases hr : (execG g s).1 with
      | some r0 =>
          obtain ⟨h1, t2, h2, h3⟩ := execC_inv kRet (execG g s).2
          refine ⟨?_, ((s.frame_cnt + 1) :: (tg ++ [s.frame_cnt])) ++ t2,
            ?_, ?_⟩
          · simp only [execC, hr]
            rw [h1, hg1]
          · simp only [execC, hr]
            rw [h2, hg2]
            simp [List.append_assoc]
          · intro v hv
            rcases List.mem_append.1 hv with hv | hv
            · rcases List.mem_cons.1 hv with hv | hv
              · omega
              · rcases List.mem_append.1 hv with hv | hv
                · have := hg3 v hv; omega
                · simp at hv; omega
            · have := h3 v hv
              rw [hg1] at this
              exact this
      | none =>
          obtain ⟨h1, t2, h2, h3⟩ := execC_inv kCont (execG g s).2
          refine ⟨?_, ((s.frame_cnt + 1) :: (tg ++ [s.frame_cnt])) ++ t2,
            ?_, ?_⟩
          · simp only [execC, hr]
            rw [h1, hg1]
          · simp only [execC, hr]
            rw [h2, hg2]
            simp [List.append_assoc]
          · intro v hv
            rcases List.mem_append.1 hv with hv | hv
            · rcases List.mem_cons.1 hv with hv | hv
              · omega
              · rcases List.mem_append.1 hv with hv | hv
                · have := hg3 v hv; omega
                · simp at hv; omega
            · have := h3 v hv
              rw [hg1] at this
              exact this

end

/-! ## Unfolding lemmas for the guard evaluations -/

theorem execC_pure (v : Int) (s : St) : execC (.pure v) s = (v, s) := by
  simp [execC]

theorem execC_effect (tg : Int) (k : CondComp) (s : St) :
    execC (.effect tg k) s
      = execC k { s with sideEffects := s.sideEffects ++ [tg] } := by
  simp [execC]

theorem execC_setErrno (e : Int) (k : CondComp) (s : St) :
    execC (.setErrno e k) s = execC k { s with errnoV := e } := by
  simp [execC]

theorem execC_evalThen_some (g : GEval) (k1 k2 : CondComp) (s : St) (r0 : Int)
    (h : (execG g s).1 = some r0) :
    execC (.evalThen g k1 k2) s = execC k1 (execG g s).2 := by
  simp only [execC, h]

theorem execG_abortIf_fire (c : CondComp) (ct rt : Str) (rv : Int)
    (site : CallSite) (n : Nat) (fmt : Str) (s : St)
    (h : (execC c (inc s)).1 ≠ 0) :
    execG (.abortIf c ct rt rv site n fmt) s
      = (some rv, dec { (execC c (inc s)).2 with
          out := (execC c (inc s)).2.out ++
            [LineRec.printed ("ABORT_IF".data) n ct rt
              ((execC c (inc s)).2.frame_cnt - 1) site
              (mkMessage (execC c (inc s)).2.buffer fmt)] }) := by
  simp only [execG, if_pos h]

theorem execG_abortIf_skip (c : CondComp) (ct rt : Str) (rv : Int)
    (site : CallSite) (n : Nat) (fmt : Str) (s : St)
    (h : ¬ (execC c (inc s)).1 ≠ 0) :
    execG (.abortIf c ct rt rv site n fmt) s
      = (none, dec (execC c (inc s)).2) := by
  simp only [execG, if_neg h]

theorem execG_abortIfNot_fire (c : CondComp) (ct rt : Str) (rv : Int)
    (site : CallSite) (n : Nat) (fmt : Str) (s : St)
    (h : (execC c (inc s)).1 = 0) :
    execG (.abortIfNot c ct rt rv site n fmt) s
      = (some rv, dec { (execC c (inc s)).2 with
          out := (execC c (inc s)).2.out ++
            [LineRec.printed ("ABORT_IF_NOT".data) n ct rt
              ((execC c (inc s)).2.frame_cnt - 1) site
              (mkMessage (execC c (inc s)).2.buffer fmt)] }) := by
  simp only [execG, if_pos h]

theorem execG_abortIfNot_skip (c : CondComp) (ct rt : Str) (rv : Int)
    (site : CallSite) (n : Nat) (fmt : Str) (s : St)
    (h : ¬ (execC c (inc s)).1 = 0) :
    execG (.abortIfNot c ct rt rv site n fmt) s
      = (none, dec (execC c (inc s)).2) := by
  simp only [execG, if_neg h]

theorem execG_abortUncond_eq (rt : Str) (rv : Int) (site : CallSite) (n : Nat)
    (fmt : Str) (s : St) :
    execG (.abortUncond rt rv site n fmt) s
      = (some rv, dec { inc s with
          out := (inc s).out ++
            [LineRec.printed ("ABORT".data) n ([] : Str) rt
              ((inc s).frame_cnt - 1) site (mkMessage (inc s).buffer fmt)] }) := by
  simp only [execG]

theorem execG_abortOnErrno_fire (c : CondComp) (et rt : Str) (rv : Int)
    (site : CallSite) (s : St) (h : (execC c (inc s)).1 = -1) :
    execG (.abortOnErrno c et rt rv site) s
      = (some rv, dec { (execC c (inc s)).2 with
          out := (execC c (inc s)).2.out ++
            [LineRec.errnoed ("ABORT_ON_ERRNO".data) et rt
              ((execC c (inc s)).2.frame_cnt - 1) site
              ((execC c (inc s)).2.errnoV)] }) := by
  simp only [execG, if_pos h]

theorem execG_abortOnErrno_skip (c : CondComp) (et rt : Str) (rv : Int)
    (site : CallSite) (s : St) (h : ¬ (execC c (inc s)).1 = -1) :
    execG (.abortOnErrno c et rt rv site) s
      = (none, dec (execC c (inc s)).2) := by
  simp only [execG, if_neg h]

/-! ## Sequences of completed evaluations -/

theorem execSeq_inv (gs : List GEval) (s : St) :
    (execSeq gs s).frame_cnt = s.frame_cnt ∧
    ∃ t, (execSeq gs s).hist = s.hist ++ t ∧ ∀ v ∈ t, s.frame_cnt ≤ v := by
  induction gs generalizing s with
  | nil => exact ⟨by simp [execSeq], [], by simp [execSeq], by simp⟩
  | cons g gs ih =>
      obtain ⟨h1, t1, h2, h3⟩ := execG_inv g s
      obtain ⟨h1', t2, h2', h3'⟩ := ih (execG g s).2
      refine ⟨?_, (s.frame_cnt + 1) :: (t1 ++ [s.frame_cnt]) ++ t2, ?_, ?_⟩
      · simp only [execSeq]
        rw [h1', h1]
      · simp only [execSeq]
        rw [h2', h2]
        simp [List.append_assoc]
      · intro v hv
        rcases List.mem_cons.1 hv with hv | hv
        · omega
        · rcases List.mem_append.1 hv with hv | hv
          · rcases List.mem_append.1 hv with hv | hv
            · have := h3 v hv; omega
            · simp at hv; omega
          · have := h3' v hv
            rw [h1] at this
            exact this

/-! ## Nested chains fire innermost-first with descending depths -/

theorem chain_exec (ns : List NodeSpec) (l : LeafSpec) (s : St) :
    ∃ r s', execG (chain ns l) s = (some r, s') ∧
      s'.frame_cnt = s.frame_cnt ∧
      ∃ L, s'.out = s.out ++ L ∧
        L.map LineRec.depth = descFrom s.frame_cnt (ns.length + 1) := by
  induction ns generalizing s with
  | nil =>
      cases l with
      | lIf ct rt rv site n fmt =>
          rw [show chain [] (.lIf ct rt rv site n fmt)
              = .abortIf (.pure 1) ct rt rv site n fmt from rfl]
          have hcond : (execC (.pure 1) (inc s)).1 ≠ 0 := by
            rw [execC_pure]
            simp
          rw [execG_abortIf_fire _ _ _ _ _ _ _ _ hcond]
          refine ⟨rv, _, rfl, ?_, ?_⟩
          · simp [execC_pure, inc, dec]
          · refine ⟨[LineRec.printed ("ABORT_IF".data) n ct rt s.frame_cnt
                site (mkMessage s.buffer fmt)], ?_, ?_⟩
            · simp [execC_pure, dec, inc]
            · simp [execC_pure, inc, descFrom, LineRec.depth]
      | lIfNot ct rt rv site n fmt =>
          rw [show chain [] (.lIfNot ct rt rv site n fmt)
              = .abortIfNot (.pure 0) ct rt rv site n fmt from rfl]
          have hcond : (execC (.pure 0) (inc s)).1 = 0 := by
            rw [execC_pure]
          rw [execG_abortIfNot_fire _ _ _ _ _ _ _ _ hcond]
          refine ⟨rv, _, rfl, ?_, ?_⟩
          · simp [execC_pure, inc, dec]
          · refine ⟨[LineRec.printed ("ABORT_IF_NOT".data) n ct rt s.frame_cnt
                site (mkMessage s.buffer fmt)], ?_, ?_⟩
            · simp [execC_pure, dec, inc]
            · simp [execC_pure, inc, descFrom, LineRec.depth]
      | lUncond rt rv site n fmt =>
          rw [show chain [] (.lUncond rt rv site n fmt)
              = .abortUncond rt rv site n fmt from rfl]
          rw [execG_abortUncond_eq]
          refine ⟨rv, _, rfl, ?_, ?_⟩
          · simp [inc, dec]
          · refine ⟨[LineRec.printed ("ABORT".data) n ([] : Str) rt s.frame_cnt
                site (mkMessage s.buffer fmt)], ?_, ?_⟩
            · simp [dec, inc]
            · simp [inc, descFrom, LineRec.depth]
      | lErr et rt rv site =>
          rw [show chain [] (.lErr et rt rv site)
              = .abortOnErrno (.pure (-1)) et rt rv site from rfl]
          have hcond : (execC (.pure (-1)) (inc s)).1 = -1 := by
            rw [execC_pure]
          rw [execG_abortOnErrno_fire _ _ _ _ _ _ hcond]
          refine ⟨rv, _, rfl, ?_, ?_⟩
          · simp [execC_pure, inc, dec]
          · refine ⟨[LineRec.errnoed ("ABORT_ON_ERRNO".data) et rt s.frame_cnt
                site s.errnoV], ?_, ?_⟩
            · simp [execC_pure, dec, inc]
            · simp [execC_pure, inc, descFrom, LineRec.depth]
  | cons nd ns ih =>
      obtain ⟨k, ct, rt, rv, site, n, fmt⟩ := nd
      obtain ⟨r0, s2, hg, hfc, L0, hout, hdep⟩ := ih (inc s)
      have hg1 : (execG (chain ns l) (inc s)).1 = some r0 := by rw [hg]
      have hg2 : (execG (chain ns l) (inc s)).2 = s2 := by rw [hg]
      cases k with
      | nIf =>
          rw [show chain (⟨.nIf, ct, rt, rv, site, n, fmt⟩ :: ns) l
              = .abortIf (.evalThen (chain ns l) (.pure 1) (.pure 1))
                  ct rt rv site n fmt from rfl]
          have hc : execC (.evalThen (chain ns l) (.pure 1) (.pure 1)) (inc s)
              = (1, s2) := by
            rw [execC_evalThen_some _ _ _ _ r0 hg1, hg2, execC_pure]
          have hfire : (execC (.evalThen (chain ns l) (.pure 1) (.pure 1))
              (inc s)).1 ≠ 0 := by
            rw [hc]
            simp
          rw [execG_abortIf_fire _ _ _ _ _ _ _ _ hfire]
          refine ⟨rv, _, rfl, ?_, ?_⟩
          · rw [hc]
            simp only [dec]
            rw [hfc]
            simp [inc]
          · refine ⟨L0 ++ [LineRec.printed ("ABORT_IF".data) n ct rt
                (s2.frame_cnt - 1) site (mkMessage s2.buffer fmt)], ?_, ?_⟩
            · rw [hc]
              simp only [dec]
              rw [hout]
              simp [inc, List.append_assoc]
            · simp only [List.map_append, hdep, List.map_cons, List.map_nil,
                LineRec.depth]
              rw [hfc]
              simp only [inc]
              simp [descFrom, List.length_cons]
      | nIfNot =>
          rw [show chain (⟨.nIfNot, ct, rt, rv, site, n, fmt⟩ :: ns) l
              = .abortIfNot (.evalThen (chain ns l) (.pure 0) (.pure 0))
                  ct rt rv site n fmt from rfl]
          have hc : execC (.evalThen (chain ns l) (.pure 0) (.pure 0)) (inc s)
              = (0, s2) := by
            rw [execC_evalThen_some _ _ _ _ r0 hg1, hg2, execC_pure]
          have hfire : (execC (.evalThen (chain ns l) (.pure 0) (.pure 0))
              (inc s)).1 = 0 := by
            rw [hc]
          rw [execG_abortIfNot_fire _ _ _ _ _ _ _ _ hfire]
          refine ⟨rv, _, rfl, ?_, ?_⟩
          · rw [hc]
            simp only [dec]
            rw [hfc]
            simp [inc]
          · refine ⟨L0 ++ [LineRec.printed ("ABORT_IF_NOT".data) n ct rt
                (s2.frame_cnt - 1) site (mkMessage s2.buffer fmt)], ?_, ?_⟩
            · rw [hc]
              simp only [dec]
              rw [hout]
              simp [inc, List.append_assoc]
            · simp only [List.map_append, hdep, List.map_cons, List.map_nil,
                LineRec.depth]
              rw [hfc]
              simp only [inc]
              simp [descFrom, List.length_cons]
      | nErr =>
          rw [show chain (⟨.nErr, ct, rt, rv, site, n, fmt⟩ :: ns) l
              = .abortOnErrno (.evalThen (chain ns l) (.pure (-1)) (.pure (-1)))
                  ct rt rv site from rfl]
          have hc : execC (.evalThen (chain ns l) (.pure (-1)) (.pure (-1)))
              (inc s) = (-1, s2) := by
            rw [execC_evalThen_some _ _ _ _ r0 hg1, hg2, execC_pure]
          have hfire : (execC (.evalThen (chain ns l) (.pure (-1)) (.pure (-1)))
              (inc s)).1 = -1 := by
            rw [hc]
          rw [execG_abortOnErrno_fire _ _ _ _ _ _ hfire]
          refine ⟨rv, _, rfl, ?_, ?_⟩
          · rw [hc]
            simp only [dec]
            rw [hfc]
            simp [inc]
          · refine ⟨L0 ++ [LineRec.errnoed ("ABORT_ON_ERRNO".data) ct rt
                (s2.frame_cnt - 1) site s2.errnoV], ?_, ?_⟩
            · rw [hc]
              simp only [dec]
              rw [hout]
              simp [inc, List.append_assoc]
            · simp only [List.map_append, hdep, List.map_cons, List.map_nil,
                LineRec.depth]
              rw [hfc]
              simp only [inc]
              simp [descFrom, List.length_cons]

/-! ## The descending depth list -/

theorem descFrom_succ (c : Int) (n : Nat) :
    descFrom c (n + 1) = (c + n) :: descFrom c n := by
  induction n generalizing c with
  | zero => simp [descFrom]
  | succ n ih =>
      have h1 : descFrom c (n + 1 + 1) = descFrom (c + 1) (n + 1) ++ [c] := rfl
      have h2 : descFrom c (n + 1) = descFrom (c + 1) n ++ [c] := rfl
      rw [h1, ih (c + 1), h2, List.cons_append]
      congr 1
      push_cast
      ring

theorem descFrom_eq_range (c : Int) (n : Nat) :
    descFrom c n = (List.range n).reverse.map (fun i : Nat => c + (i : Int)) := by
  induction n with
  | zero => simp [descFrom]
  | succ n ih =>
      rw [descFrom_succ, List.range_succ]
      simp [ih]

theorem descFrom_length (c : Int) (n : Nat) : (descFrom c n).length = n := by
  rw [descFrom_eq_range, List.length_map, List.length_reverse,
    List.length_range]

theorem descFrom_pairwise (c : Int) (n : Nat) :
    List.Pairwise (fun a b => b < a) (descFrom c n) := by
  rw [descFrom_eq_range]
  have h1 : List.Pairwise (fun a b : Nat => b < a) (List.range n).reverse :=
    List.pairwise_reverse.2 (List.pairwise_lt_range n)
  refine List.Pairwise.map _ ?_ h1
  intro a b hab
  omega

/-! ## Per-kind firing outcome lemmas (pure conditions) -/

theorem abortIf_out_signal (v rv : Int) (ct rt : Str) (site : CallSite)
    (n : Nat) (fmt : Str) (s : St) :
    (execG (.abortIf (.pure v) ct rt rv site n fmt) s).1
        = (if v ≠ 0 then some rv else none) ∧
    ((execG (.abortIf (.pure v) ct rt rv site n fmt) s).2).out
        = s.out ++ (if v ≠ 0 then
            [LineRec.printed ("ABORT_IF".data) n ct rt s.frame_cnt site
              (mkMessage s.buffer fmt)] else []) := by
  by_cases hv : v ≠ 0
  · have hc : (execC (.pure v) (inc s)).1 ≠ 0 := by rw [execC_pure]; exact hv
    rw [execG_abortIf_fire _ _ _ _ _ _ _ _ hc]
    exact ⟨by simp [hv], by simp [hv, execC_pure, dec, inc]⟩
  · have hc : ¬ (execC (.pure v) (inc s)).1 ≠ 0 := by rw [execC_pure]; exact hv
    rw [execG_abortIf_skip _ _ _ _ _ _ _ _ hc]
    exact ⟨by simp [hv], by simp [hv, execC_pure, dec, inc]⟩

theorem abortIfNot_out_signal (v rv : Int) (ct rt : Str) (site : CallSite)
    (n : Nat) (fmt : Str) (s : St) :
    (execG (.abortIfNot (.pure v) ct rt rv site n fmt) s).1
        = (if v = 0 then some rv else none) ∧
    ((execG (.abortIfNot (.pure v) ct rt rv site n fmt) s).2).out
        = s.out ++ (if v = 0 then
            [LineRec.printed ("ABORT_IF_NOT".data) n ct rt s.frame_cnt site
              (mkMessage s.buffer fmt)] else []) := by
  by_cases hv : v = 0
  · have hc : (execC (.pure v) (inc s)).1 = 0 := by rw [execC_pure]; exact hv
    rw [execG_abortIfNot_fire _ _ _ _ _ _ _ _ hc]
    exact ⟨by simp [hv], by simp [hv, execC_pure, dec, inc]⟩
  · have hc : ¬ (execC (.pure v) (inc s)).1 = 0 := by rw [execC_pure]; exact hv
    rw [execG_abortIfNot_skip _ _ _ _ _ _ _ _ hc]
    exact ⟨by simp [hv], by simp [hv, execC_pure, dec, inc]⟩

theorem abortUncond_out_signal (rv : Int) (rt : Str) (site : CallSite)
    (n : Nat) (fmt : Str) (s : St) :
    (execG (.abortUncond rt rv site n fmt) s).1 = some rv ∧
    ((execG (.abortUncond rt rv site n fmt) s).2).out
        = s.out ++ [LineRec.printed ("ABORT".data) n ([] : Str) rt
            s.frame_cnt site (mkMessage s.buffer fmt)] := by
  rw [execG_abortUncond_eq]
  exact ⟨rfl, by simp [dec, inc]⟩

theorem abortOnErrno_out_signal (e v rv : Int) (et rt : Str) (site : CallSite)
    (s : St) :
    (execG (.abortOnErrno (.setErrno e (.pure v)) et rt rv site) s).1
        = (if v = -1 then some rv else none) ∧
    ((execG (.abortOnErrno (.setErrno e (.pure v)) et rt rv site) s).2).out
        = s.out ++ (if v = -1 then
            [LineRec.errnoed ("ABORT_ON_ERRNO".data) et rt s.frame_cnt site e]
          else []) := by
  have hce : execC (.setErrno e (.pure v)) (inc s)
      = (v, { inc s with errnoV := e }) := by
    rw [execC_setErrno, execC_pure]
  by_cases hv : v = -1
  · have hc : (execC (.setErrno e (.pure v)) (inc s)).1 = -1 := by
      rw [hce]; exact hv
    rw [execG_abortOnErrno_fire _ _ _ _ _ _ hc]
    refine ⟨by simp [hv], ?_⟩
    rw [hce]
    simp [hv, dec, inc]
  · have hc : ¬ (execC (.setErrno e (.pure v)) (inc s)).1 = -1 := by
      rw [hce]; exact hv
    rw [execG_abortOnErrno_skip _ _ _ _ _ _ hc]
    refine ⟨by simp [hv], ?_⟩
    rw [hce]
    simp [hv, dec, inc]

/-! ## The claims -/

/-- C1: For every guard evaluation of any of the four kinds, the shared depth
counter after the evaluation yields control back equals its value before
entry, whether or not the guard fired; within one evaluation the counter is
incremented exactly once on entry (the first recorded value is the old value
plus one) and decremented exactly once on exit (the last recorded value is
the old value again); and after any sequence of fully completed, possibly
nested, guard evaluations starting from counter 0, the counter is again 0 and
every value it ever took is non-negative. -/
theorem C1_depth_counter_balance :
    (∀ (g : GEval) (s : St), ((execG g s).2).frame_cnt = s.frame_cnt) ∧
    (∀ (g : GEval) (s : St), ∃ t, ((execG g s).2).hist
        = s.hist ++ (s.frame_cnt + 1) :: (t ++ [s.frame_cnt])) ∧
    (∀ gs : List GEval, (execSeq gs initSt).frame_cnt = 0) ∧
    (∀ gs : List GEval, ∀ v ∈ (execSeq gs initSt).hist, 0 ≤ v) := by
  refine ⟨fun g s => (execG_inv g s).1,
    fun g s => ((execG_inv g s).2).elim (fun t ht => ⟨t, ht.1⟩),
    fun gs => by rw [(execSeq_inv gs initSt).1]; rfl,
    fun gs v hv => ?_⟩
  obtain ⟨h1, t, h2, h3⟩ := execSeq_inv gs initSt
  rw [h2] at hv
  have hv' : v ∈ t := by simpa [initSt] using hv
  have hge := h3 v hv'
  simpa [initSt] using hge

/-- Witness for C1: a concrete completed evaluation brings the counter back
to 0. -/
theorem C1_depth_counter_balance_witness :
    (execSeq [GEval.abortUncond ("0".data) 0 ⟨[], 0, []⟩ 0 []] initSt).frame_cnt
      = 0 :=
  C1_depth_counter_balance.2.2.1
    [GEval.abortUncond ("0".data) 0 ⟨[], 0, []⟩ 0 []]

/-- C2: With configured message size limit `L` and a firing guard carrying a
user format string whose substituted natural text is the NUL-free `fmt` of
length `M`, the user-message segment of the emitted line - the caller-visible
NUL-terminated text after the single leading space - has length exactly
`min L M`, and the macro pipeline emits exactly one line carrying that
message string. -/
theorem C2_user_message_truncation (L : Nat) (fmt : Str) (h : nulFree fmt)
    (s : St) (m : Nat) (v rv : Int) (ct rt : Str) (site : CallSite) (n : Nat)
    (hv : v ≠ 0) :
    (userSegment (msgFor L fmt)).length = min L fmt.length ∧
    ∃ s', execG (.abortIf (.pure v) ct rt rv site n fmt)
        (set_message_size L { s with buffer := nulBuf m }) = (some rv, s') ∧
      s'.out = s.out ++ [LineRec.printed ("ABORT_IF".data) n ct rt
        s.frame_cnt site (msgFor L fmt)] := by
  refine ⟨userSegment_msgFor_length L fmt h, ?_⟩
  have hc : (execC (.pure v)
      (inc (set_message_size L { s with buffer := nulBuf m }))).1 ≠ 0 := by
    rw [execC_pure]
    exact hv
  refine ⟨_, execG_abortIf_fire _ _ _ _ _ _ _ _ hc, ?_⟩
  simp [execC_pure, dec, inc, set_message_size, strResize_nulBuf, msgFor]

/-- Witness for C2 at limit 3 and message `hello`. -/
theorem C2_user_message_truncation_witness :
    (userSegment (msgFor 3 ("hello".data))).length
        = min 3 ("hello".data).length ∧
    ∃ s', execG (.abortIf (.pure 1) ("x".data) ("-1".data) (-1) ⟨[], 0, []⟩ 1
        ("hello".data)) (set_message_size 3 { initSt with buffer := nulBuf 7 })
      = (some (-1), s') ∧
      s'.out = initSt.out ++ [LineRec.printed ("ABORT_IF".data) 1 ("x".data)
        ("-1".data) initSt.frame_cnt ⟨[], 0, []⟩ (msgFor 3 ("hello".data))] :=
  C2_user_message_truncation 3 ("hello".data) (by decide) initSt 7 1 (-1)
    ("x".data) ("-1".data) ⟨[], 0, []⟩ 1 (by decide)

/-- C3: With the configured message size limit 0, a firing guard with a user
format string still emits a line carrying the full
`abort[depth]: file:line: In (routine):` prefix, but its user-message body is
empty: the message string is the leading space and the NUL terminator only,
and its caller-visible user segment is the empty string. -/
theorem C3_zero_limit_empty_body (fmt : Str) (s : St) (m : Nat) (v rv : Int)
    (ct rt : Str) (site : CallSite) (n : Nat) (hn : n ≠ 0) (hv : v ≠ 0) :
    msgFor 0 fmt = [' ', nulChar] ∧
    userSegment (msgFor 0 fmt) = [] ∧
    (∃ s', execG (.abortIf (.pure v) ct rt rv site n fmt)
        (set_message_size 0 { s with buffer := nulBuf m }) = (some rv, s') ∧
      s'.out = s.out ++ [LineRec.printed ("ABORT_IF".data) n ct rt
        s.frame_cnt site (msgFor 0 fmt)]) ∧
    LineRec.render (LineRec.printed ("ABORT_IF".data) n ct rt s.frame_cnt site
        (msgFor 0 fmt))
      = lineHeader s.frame_cnt site.file site.linum site.func
          ++ [' ', nulChar] := by
  have hm : msgFor 0 fmt = [' ', nulChar] := by
    rw [msgFor_eq]
    simp [nulBuf]
  refine ⟨hm, ?_, ?_, ?_⟩
  · rw [hm]
    simp [userSegment, List.takeWhile]
  · have hc : (execC (.pure v)
        (inc (set_message_size 0 { s with buffer := nulBuf m }))).1 ≠ 0 := by
      rw [execC_pure]
      exact hv
    refine ⟨_, execG_abortIf_fire _ _ _ _ _ _ _ _ hc, ?_⟩
    simp [execC_pure, dec, inc, set_message_size, strResize_nulBuf, msgFor]
  · rw [hm]
    simp [LineRec.render, print_msg, hn]

/-- Witness for C3 at a concrete call site. -/
theorem C3_zero_limit_empty_body_witness :
    msgFor 0 ("hello".data) = [' ', nulChar] ∧
    userSegment (msgFor 0 ("hello".data)) = [] ∧
    (∃ s', execG (.abortIf (.pure 1) ("x".data) ("-1".data) (-1) ⟨[], 0, []⟩ 1
        ("hello".data)) (set_message_size 0 { initSt with buffer := nulBuf 5 })
      = (some (-1), s') ∧
      s'.out = initSt.out ++ [LineRec.printed ("ABORT_IF".data) 1 ("x".data)
        ("-1".data) initSt.frame_cnt ⟨[], 0, []⟩ (msgFor 0 ("hello".data))]) ∧
    LineRec.render (LineRec.printed ("ABORT_IF".data) 1 ("x".data) ("-1".data)
        initSt.frame_cnt ⟨[], 0, []⟩ (msgFor 0 ("hello".data)))
      = lineHeader initSt.frame_cnt ([] : Str) 0 ([] : Str)
          ++ [' ', nulChar] :=
  C3_zero_limit_empty_body ("hello".data) initSt 5 1 (-1) ("x".data)
    ("-1".data) ⟨[], 0, []⟩ 1 (by decide) (by decide)

/-- C4: every recursive chain of N nested guard evaluations that all fire,
started with the depth counter at 0, emits exactly N lines whose embedded
depth values are the strictly descending sequence N-1, ..., 1, 0 in emission
order - each depth of 0..N-1 exactly once.  (The unconditional kind carries
no condition expression, so it can only be the innermost member of a nested
chain; a recursive call in its return expression is evaluated after its exit
and is not nested.) -/
theorem C4_nested_chain_depths (ns : List NodeSpec) (l : LeafSpec) :
    ∃ r s', execG (chain ns l) initSt = (some r, s') ∧
      s'.out.length = ns.length + 1 ∧
      s'.out.map LineRec.depth
        = (List.range (ns.length + 1)).reverse.map (fun i : Nat => (i : Int)) ∧
      List.Pairwise (fun a b => b < a) (s'.out.map LineRec.depth) := by
  obtain ⟨r, s', hE, hfc, L, hout, hdep⟩ := chain_exec ns l initSt
  have hout' : s'.out = L := by simpa [initSt] using hout
  have hdep0 : List.map LineRec.depth L = descFrom 0 (ns.length + 1) := by
    simpa [initSt] using hdep
  refine ⟨r, s', hE, ?_, ?_, ?_⟩
  · rw [hout']
    have hlen := congrArg List.length hdep0
    rw [List.length_map, descFrom_length] at hlen
    exact hlen
  · rw [hout', hdep0, descFrom_eq_range]
    simp
  · rw [hout', hdep0]
    exact descFrom_pairwise 0 (ns.length + 1)

/-- C5: every line produced by `print_msg` has the shape
`abort[depth]: file:line: In (routine): body`; with no extra format
arguments the body is `kind(cond, ret);`, the condition segment and its
comma/space omitted entirely when the condition text is empty; with format
arguments the body is the user message (which starts with the space the
macros prepend). -/
theorem C5_line_shape (select cond ret : Str) (fc : Int) (file : Str)
    (linum : Nat) (func : Str) (msg : Str) (n : Nat) (rest : Str)
    (hn : n ≠ 0) (hmsg : msg = ' ' :: rest) :
    print_msg select 0 cond ret fc file linum func msg
      = lineHeader fc file linum func
          ++ ' ' :: (select ++ "(".data ++ cond
              ++ (if cond = [] then ([] : Str) else ", ".data)
              ++ ret ++ ");".data) ∧
    print_msg select 0 ([] : Str) ret fc file linum func msg
      = lineHeader fc file linum func
          ++ ' ' :: (select ++ "(".data ++ ret ++ ");".data) ∧
    print_msg select n cond ret fc file linum func msg
      = lineHeader fc file linum func ++ ' ' :: rest ∧
    lineHeader fc file linum func
      = "abort[".data ++ intStr fc ++ "]: ".data ++ file ++ ":".data
          ++ natStr linum ++ ": In \x27".data ++ func ++ "\x27:".data := by
  refine ⟨?_, ?_, ?_, rfl⟩
  · simp [print_msg]
  · simp [print_msg]
  · rw [hmsg]
    simp [print_msg, hn]

/-- Witness for C5 at concrete texts. -/
theorem C5_line_shape_witness :
    print_msg ("ABORT_IF".data) 0 ("x".data) ("-1".data) 0 ("f.cc".data) 3
        ("g".data) (' ' :: "hi".data)
      = lineHeader 0 ("f.cc".data) 3 ("g".data)
          ++ ' ' :: ("ABORT_IF".data ++ "(".data ++ "x".data
              ++ (if ("x".data : Str) = [] then ([] : Str) else ", ".data)
              ++ "-1".data ++ ");".data) ∧
    print_msg ("ABORT_IF".data) 0 ([] : Str) ("-1".data) 0 ("f.cc".data) 3
        ("g".data) (' ' :: "hi".data)
      = lineHeader 0 ("f.cc".data) 3 ("g".data)
          ++ ' ' :: ("ABORT_IF".data ++ "(".data ++ "-1".data ++ ");".data) ∧
    print_msg ("ABORT_IF".data) 1 ("x".data) ("-1".data) 0 ("f.cc".data) 3
        ("g".data) (' ' :: "hi".data)
      = lineHeader 0 ("f.cc".data) 3 ("g".data) ++ ' ' :: "hi".data ∧
    lineHeader 0 ("f.cc".data) 3 ("g".data)
      = "abort[".data ++ intStr 0 ++ "]: ".data ++ "f.cc".data ++ ":".data
          ++ natStr 3 ++ ": In \x27".data ++ "g".data ++ "\x27:".data :=
  C5_line_shape ("ABORT_IF".data) ("x".data) ("-1".data) 0 ("f.cc".data) 3
    ("g".data) (' ' :: "hi".data) 1 ("hi".data) (by decide) rfl

/-- C6: for each of the four guard kinds, when the firing condition is
satisfied the evaluation writes exactly one line to the sink and signals
early return with the specified value; when it is not satisfied it writes
zero lines and signals continue (`none`). -/
theorem C6_fire_outcomes (v rv e : Int) (ct rt : Str) (site : CallSite)
    (n : Nat) (fmt : Str) (s : St) :
    ((execG (.abortIf (.pure v) ct rt rv site n fmt) s).1
        = (if v ≠ 0 then some rv else none) ∧
      ((execG (.abortIf (.pure v) ct rt rv site n fmt) s).2).out
        = s.out ++ (if v ≠ 0 then
            [LineRec.printed ("ABORT_IF".data) n ct rt s.frame_cnt site
              (mkMessage s.buffer fmt)] else [])) ∧
    ((execG (.abortIfNot (.pure v) ct rt rv site n fmt) s).1
        = (if v = 0 then some rv else none) ∧
      ((execG (.abortIfNot (.pure v) ct rt rv site n fmt) s).2).out
        = s.out ++ (if v = 0 then
            [LineRec.printed ("ABORT_IF_NOT".data) n ct rt s.frame_cnt site
              (mkMessage s.buffer fmt)] else [])) ∧
    ((execG (.abortUncond rt rv site n fmt) s).1 = some rv ∧
      ((execG (.abortUncond rt rv site n fmt) s).2).out
        = s.out ++ [LineRec.printed ("ABORT".data) n ([] : Str) rt
            s.frame_cnt site (mkMessage s.buffer fmt)]) ∧
    ((execG (.abortOnErrno (.setErrno e (.pure v)) ct rt rv site) s).1
        = (if v = -1 then some rv else none) ∧
      ((execG (.abortOnErrno (.setErrno e (.pure v)) ct rt rv site) s).2).out
        = s.out ++ (if v = -1 then
            [LineRec.errnoed ("ABORT_ON_ERRNO".data) ct rt s.frame_cnt site e]
          else [])) :=
  ⟨abortIf_out_signal v rv ct rt site n fmt s,
   abortIfNot_out_signal v rv ct rt site n fmt s,
   abortUncond_out_signal rv rt site n fmt s,
   abortOnErrno_out_signal e v rv ct rt site s⟩

/-- C7: the supplied condition expression (or, for the errno-style kind, the
wrapped expression) is evaluated exactly once per guard evaluation: an
observable side effect it carries is recorded exactly once, whether or not
the guard fires (for every condition value `v`). -/
theorem C7_condition_once (tg v rv : Int) (ct rt : Str) (site : CallSite)
    (n : Nat) (fmt : Str) (s : St) :
    ((execG (.abortIf (.effect tg (.pure v)) ct rt rv site n fmt) s).2).sideEffects
        = s.sideEffects ++ [tg] ∧
    ((execG (.abortIfNot (.effect tg (.pure v)) ct rt rv site n fmt) s).2).sideEffects
        = s.sideEffects ++ [tg] ∧
    ((execG (.abortOnErrno (.effect tg (.pure v)) ct rt rv site) s).2).sideEffects
        = s.sideEffects ++ [tg] := by
  have hce : ∀ s1 : St, execC (.effect tg (.pure v)) s1
      = (v, { s1 with sideEffects := s1.sideEffects ++ [tg] }) := by
    intro s1
    rw [execC_effect, execC_pure]
  refine ⟨?_, ?_, ?_⟩
  · by_cases hv : v ≠ 0
    · have hc : (execC (.effect tg (.pure v)) (inc s)).1 ≠ 0 := by
        rw [hce]
        exact hv
      rw [execG_abortIf_fire _ _ _ _ _ _ _ _ hc, hce]
      simp [dec, inc]
    · have hc : ¬ (execC (.effect tg (.pure v)) (inc s)).1 ≠ 0 := by
        rw [hce]
        exact hv
      rw [execG_abortIf_skip _ _ _ _ _ _ _ _ hc, hce]
      simp [dec, inc]
  · by_cases hv : v = 0
    · have hc : (execC (.effect tg (.pure v)) (inc s)).1 = 0 := by
        rw [hce]
        exact hv
      rw [execG_abortIfNot_fire _ _ _ _ _ _ _ _ hc, hce]
      simp [dec, inc]
    · have hc : ¬ (execC (.effect tg (.pure v)) (inc s)).1 = 0 := by
        rw [hce]
        exact hv
      rw [execG_abortIfNot_skip _ _ _ _ _ _ _ _ hc, hce]
      simp [dec, inc]
  · by_cases hv : v = -1
    · have hc : (execC (.effect tg (.pure v)) (inc s)).1 = -1 := by
        rw [hce]
        exact hv
      rw [execG_abortOnErrno_fire _ _ _ _ _ _ hc, hce]
      simp [dec, inc]
    · have hc : ¬ (execC (.effect tg (.pure v)) (inc s)).1 = -1 := by
        rw [hce]
        exact hv
      rw [execG_abortOnErrno_skip _ _ _ _ _ _ hc, hce]
      simp [dec, inc]

/-- C8: the errno-style guard fires exactly when the wrapped expression
evaluates to -1; when it fires the emitted line records the guard-kind tag
and the error code last recorded by the expression, its rendering contains
the tag and the description of that code (and not a user-formatted message:
the `errnoed` record carries no user message at all); when the expression is
not -1 no line is emitted. -/
theorem C8_errno_guard (e v rv : Int) (et rt : Str) (site : CallSite)
    (s : St) :
    (execG (.abortOnErrno (.setErrno e (.pure v)) et rt rv site) s).1
        = (if v = -1 then some rv else none) ∧
    ((execG (.abortOnErrno (.setErrno e (.pure v)) et rt rv site) s).2).out
        = s.out ++ (if v = -1 then
            [LineRec.errnoed ("ABORT_ON_ERRNO".data) et rt s.frame_cnt site e]
          else []) ∧
    List.IsInfix ("ABORT_ON_ERRNO".data)
      (LineRec.render
        (.errnoed ("ABORT_ON_ERRNO".data) et rt s.frame_cnt site e)) ∧
    List.IsInfix (strerror_desc e)
      (LineRec.render
        (.errnoed ("ABORT_ON_ERRNO".data) et rt s.frame_cnt site e)) := by
  refine ⟨(abortOnErrno_out_signal e v rv et rt site s).1,
    (abortOnErrno_out_signal e v rv et rt site s).2, ?_, ?_⟩
  · refine ⟨lineHeader s.frame_cnt site.file site.linum site.func ++ " ".data,
      "(".data ++ et ++ ", ".data ++ rt ++ "): ".data ++ strerror_desc e, ?_⟩
    simp [LineRec.render, errno_msg, List.append_assoc]
  · refine ⟨lineHeader s.frame_cnt site.file site.linum site.func ++ " ".data
      ++ "ABORT_ON_ERRNO".data ++ "(".data ++ et ++ ", ".data ++ rt
      ++ "): ".data, [], ?_⟩
    simp [LineRec.render, errno_msg, List.append_assoc]

/-- C9 (amended): in the current implementation
(include/abort/abort.h with src/abort.cc) the message-construction step of a
firing guard never throws, for every buffer state including the one reached
by `set_message_size 0`: the `at(0)` access sits behind the
`!message.empty()` guard, and `set_message_size` keeps the buffer at size
`size + 2 ≥ 2`.  (The legacy root header violates the original claim: see the
counterexample theorem.) -/
theorem C9_current_no_throw (b fmt : Str) :
    build_message b fmt = Except.ok (mkMessage b fmt) := by
  by_cases hb : b = []
  · simp [build_message, mkMessage, hb]
  · have hlen : 0 < b.length := List.length_pos.2 hb
    simp [build_message, mkMessage, hb, strAt, hlen]

/-- C9 counterexample: in the legacy root header, after
`set_message_size(0)` the buffer is empty, and a firing guard with at least
one format argument evaluates `buffer.at(0)`, which raises
`std::out_of_range` - so a guard evaluation at the reachable limit-0
configuration does throw, refuting the claim as stated over the whole
repository. -/
theorem C9_legacy_throws_at_zero :
    legacy_fire_body (legacy_set_message_size 0 (nulBuf 1024)) 1
      ("ABORT(0);".data) ("hello".data) = Except.error CppExc.outOfRange := by
  have h0 : legacy_set_message_size 0 (nulBuf 1024) = [] := by
    unfold legacy_set_message_size
    rw [strResize_nulBuf]
    rfl
  rw [h0]
  rfl

/-- C10: when a guard with at least one format argument fires, the
user-message string streamed to the sink has the fixed length
`buffer size = limit + 2` (1024 by default), independent of the natural
length `M` of the formatted text: a single leading space, then the text
truncated by snprintf to at most `limit` characters, then NUL characters
(terminator plus padding) up to the fixed length. -/
theorem C10_fixed_length_write (L : Nat) (fmt : Str) (s : St) (m : Nat)
    (rv : Int) (rt : Str) (site : CallSite) (n : Nat) (hn : n ≠ 0) :
    (msgFor L fmt).length = L + 2 ∧
    msgFor L fmt = ' ' :: (fmt.take L
        ++ nulChar :: nulBuf (L - min fmt.length L)) ∧
    (∀ b f, (mkMessage b f).length = b.length) ∧
    initSt.buffer.length = 1024 ∧
    (∃ s', execG (.abortUncond rt rv site n fmt)
        (set_message_size L { s with buffer := nulBuf m }) = (some rv, s') ∧
      s'.out = s.out ++ [LineRec.printed ("ABORT".data) n ([] : Str) rt
        s.frame_cnt site (msgFor L fmt)]) ∧
    LineRec.render (LineRec.printed ("ABORT".data) n ([] : Str) rt s.frame_cnt
        site (msgFor L fmt))
      = lineHeader s.frame_cnt site.file site.linum site.func
          ++ msgFor L fmt := by
  refine ⟨msgFor_length L fmt, ?_, mkMessage_length, ?_, ?_, ?_⟩
  · rw [msgFor_eq]
    have ht : fmt.take (min fmt.length L) = fmt.take L := by
      rw [List.take_eq_take]
      omega
    rw [ht]
  · show (nulBuf 1024).length = 1024
    exact List.length_replicate 1024 nulChar
  · rw [execG_abortUncond_eq]
    refine ⟨_, rfl, ?_⟩
    simp [dec, inc, set_message_size, strResize_nulBuf, msgFor]
  · simp [LineRec.render, print_msg, hn]

/-- Witness for C10 at limit 3 and message `hello`. -/
theorem C10_fixed_length_write_witness :
    (msgFor 3 ("hello".data)).length = 3 + 2 ∧
    msgFor 3 ("hello".data) = ' ' :: (("hello".data).take 3
        ++ nulChar :: nulBuf (3 - min ("hello".data).length 3)) ∧
    (∀ b f, (mkMessage b f).length = b.length) ∧
    initSt.buffer.length = 1024 ∧
    (∃ s', execG (.abortUncond ("0".data) 0 ⟨[], 0, []⟩ 1 ("hello".data))
        (set_message_size 3 { initSt with buffer := nulBuf 9 })
      = (some 0, s') ∧
      s'.out = initSt.out ++ [LineRec.printed ("ABORT".data) 1 ([] : Str)
        ("0".data) initSt.frame_cnt ⟨[], 0, []⟩ (msgFor 3 ("hello".data))]) ∧
    LineRec.render (LineRec.printed ("ABORT".data) 1 ([] : Str) ("0".data)
        initSt.frame_cnt ⟨[], 0, []⟩ (msgFor 3 ("hello".data)))
      = lineHeader initSt.frame_cnt ([] : Str) 0 ([] : Str)
          ++ msgFor 3 ("hello".data) :=
  C10_fixed_length_write 3 ("hello".data) initSt 9 0 ("0".data) ⟨[], 0, []⟩ 1
    (by decide)

end Abort
